import Mathlib

/-!
Verification of the plugin process pool of sslyze
(`src/utils/plugins_process_pool.py`, class `PluginsProcessPool`).

The pool owns a shared task queue, one hostname-affinity queue per target
host (possibly reused across hosts under capacity pressure), a result queue,
and a registry of worker processes.  We embed the pool state shallowly:

* Python dicts become association lists with Python's update semantics
  (updating an existing key keeps its position, a new key is appended);
* `multiprocessing.JoinableQueue` contents become lists of
  `Option PluginTask` (the `None` sentinel is `none`);
* queue identity matters (distinct hostnames may share one queue), so each
  queue carries a numeric id and a store maps ids to contents;
* `random.choice` over the dict values becomes an explicit selection
  function parameter together with the validity predicate `PickValid`;
* `WorkerProcess(...).start()` can raise at the OS level, modelled by a
  boolean `spawnOk` parameter; a raised Python exception propagates while
  in-place mutations performed before the raise stick, so every operation
  returns the (possibly mutated) state alongside an optional error.
-/

namespace SSLyze

abbrev Hostname := String

abbrev QueueId := Nat

abbrev PluginCommand := String

/-- A `server_connectivity_info` object; only its `hostname` attribute is
read by the pool. -/
structure ServerConnectivityInfo where
  hostname : Hostname
  deriving DecidableEq, Repr

/-- The `(server_connectivity_info, plugin_command, plugin_options_dict)`
triple enqueued by `queue_plugin_task`. -/
structure PluginTask where
  serverInfo : ServerConnectivityInfo
  pluginCommand : PluginCommand
  pluginOptionsDict : List (String × String)
  deriving DecidableEq, Repr

/-- An item travelling on a joinable task queue: either a real task or the
`None` termination sentinel. -/
abbrev QItem := Option PluginTask

/-- A `(server_info, plugin_command, plugin_result)` tuple produced by a
worker; the result payload is opaque to the pool. -/
structure ScanResult where
  serverInfo : ServerConnectivityInfo
  pluginCommand : PluginCommand
  pluginResult : String
  deriving DecidableEq, Repr

/-- The `available_plugins` collaborator: exposes the aggressive command
identifiers and the full command registry. -/
structure AvailablePlugins where
  aggressiveCommands : List PluginCommand
  allCommands : List PluginCommand
  deriving DecidableEq, Repr

/-- A `WorkerProcess` as constructed by the pool: bound to one hostname
queue, the shared task queue and the result queue, and given the command
registry plus the network settings. -/
structure WorkerProcess where
  hostnameQueue : QueueId
  taskQueue : QueueId
  resultQueue : QueueId
  availableCommands : List PluginCommand
  networkRetries : Nat
  networkTimeout : Nat
  deriving DecidableEq, Repr

/-- Association-list lookup with decidable key equality (Python `d[k]` /
`k in d`). -/
def alookup {α β : Type} [DecidableEq α] (k : α) : List (α × β) → Option β
  | [] => none
  | (k', v) :: rest => if k = k' then some v else alookup k rest

/-- Association-list update with Python dict semantics: an existing key is
updated in place, a new key is appended at the end. -/
def aset {α β : Type} [DecidableEq α] (k : α) (v : β) : List (α × β) → List (α × β)
  | [] => [(k, v)]
  | (k', v') :: rest => if k = k' then (k, v) :: rest else (k', v') :: aset k v rest

/-- Errors a pool call can raise: `random.choice` on an empty sequence
(`IndexError`), a failed `process.start()` at the OS level, and a missing
dict key (`KeyError`, unreachable from well-formed states). -/
inductive PoolErr where
  | indexError
  | osError
  | keyError
  deriving DecidableEq, Repr

/-- Id of the shared `_task_queue` created by the constructor. -/
def taskQueueId : QueueId := 0

/-- Id of the `_result_queue` created by the constructor. -/
def resultQueueId : QueueId := 1

/-- The mutable state of a `PluginsProcessPool` instance.  `queueStore` maps
each `JoinableQueue`'s id to its current contents; hostname queues are
reachable through `hostnameQueuesDict`, and several hostnames may share one
queue id. -/
structure PoolState where
  availablePlugins : AvailablePlugins
  networkRetries : Nat
  networkTimeout : Nat
  maxProcessesNb : Nat
  maxProcessesPerHostnameNb : Nat
  hostnameQueuesDict : List (Hostname × QueueId)
  processesDict : List (Hostname × List WorkerProcess)
  queueStore : List (QueueId × List QItem)
  queuedTasksNb : Nat
  nextQueueId : Nat
  deriving DecidableEq, Repr

def DEFAULT_MAX_PROCESSES_NB : Nat := 12

def DEFAULT_PROCESSES_PER_HOSTNAME_NB : Nat := 3

/-- `PluginsProcessPool.__init__`: empty registries, fresh shared task and
result queues, zero queued tasks. -/
def mkPool (availablePlugins : AvailablePlugins) (networkRetries networkTimeout : Nat)
    (maxProcessesNb : Nat := DEFAULT_MAX_PROCESSES_NB)
    (maxProcessesPerHostnameNb : Nat := DEFAULT_PROCESSES_PER_HOSTNAME_NB) : PoolState :=
  { availablePlugins := availablePlugins
    networkRetries := networkRetries
    networkTimeout := networkTimeout
    maxProcessesNb := maxProcessesNb
    maxProcessesPerHostnameNb := maxProcessesPerHostnameNb
    hostnameQueuesDict := []
    processesDict := []
    queueStore := [(taskQueueId, []), (resultQueueId, [])]
    queuedTasksNb := 0
    nextQueueId := 2 }

/-- Contents of queue `q` in state `s` (`[]` for a queue id not in the
store). -/
def queueItems (s : PoolState) (q : QueueId) : List QItem :=
  (alookup q s.queueStore).getD []

/-- `queue.put(item)`: append `item` to queue `q`. -/
def putItem (s : PoolState) (q : QueueId) (item : QItem) : PoolState :=
  { s with queueStore := aset q (queueItems s q ++ [item]) s.queueStore }

/-- `for _ in xrange(n): queue.put(None)` on queue `q`. -/
def putSentinels (s : PoolState) (q : QueueId) : Nat → PoolState
  | 0 => s
  | n + 1 => putSentinels (putItem s q none) q n

/-- `PluginsProcessPool._get_current_processes_nb`: sum of the lengths of
all process lists in `_processes_dict`. -/
def getCurrentProcessesNb (s : PoolState) : Nat :=
  (s.processesDict.map (fun p => p.2.length)).sum

/-- Validity of the selection function standing in for `random.choice`:
it raises (`none`) exactly on the empty list and otherwise returns a
member of the list. -/
def PickValid (pick : List QueueId → Option QueueId) : Prop :=
  (∀ l q, pick l = some q → q ∈ l) ∧ ∀ l : List QueueId, l ≠ [] → (pick l).isSome

/-- A concrete selection function: take the first value. -/
def pick0 : List QueueId → Option QueueId :=
  fun l => l.head?

/-- `PluginsProcessPool._check_and_create_process(hostname)`.  `pick`
models `random.choice` over the dict's values, `spawnOk` models whether
`process.start()` succeeds.  Returns the mutated state together with the
raised exception, if any (mutations made before a raise persist, as they
do on the Python object). -/
def checkAndCreateProcess (pick : List QueueId → Option QueueId) (spawnOk : Bool)
    (s : PoolState) (hostname : Hostname) : PoolState × Option PoolErr :=
  match alookup hostname s.hostnameQueuesDict with
  | none =>
    if getCurrentProcessesNb s < s.maxProcessesNb then
      let hostnameQueue := s.nextQueueId
      let s1 : PoolState :=
        { s with hostnameQueuesDict := aset hostname hostnameQueue s.hostnameQueuesDict
                 queueStore := s.queueStore ++ [(hostnameQueue, [])]
                 nextQueueId := s.nextQueueId + 1 }
      if spawnOk then
        let process : WorkerProcess :=
          { hostnameQueue := hostnameQueue
            taskQueue := taskQueueId
            resultQueue := resultQueueId
            availableCommands := s.availablePlugins.allCommands
            networkRetries := s.networkRetries
            networkTimeout := s.networkTimeout }
        ({ s1 with processesDict := aset hostname [process] s1.processesDict }, none)
      else
        (s1, some .osError)
    else
      match pick (s.hostnameQueuesDict.map Prod.snd) with
      | none => (s, some .indexError)
      | some chosenQueue =>
        ({ s with hostnameQueuesDict := aset hostname chosenQueue s.hostnameQueuesDict
                  processesDict := aset hostname [] s.processesDict }, none)
  | some hostnameQueue =>
    match alookup hostname s.processesDict with
    | none => (s, some .keyError)
    | some processList =>
      if processList.length < s.maxProcessesPerHostnameNb ∧
          getCurrentProcessesNb s < s.maxProcessesNb then
        if spawnOk then
          let process : WorkerProcess :=
            { hostnameQueue := hostnameQueue
              taskQueue := taskQueueId
              resultQueue := resultQueueId
              availableCommands := s.availablePlugins.allCommands
              networkRetries := s.networkRetries
              networkTimeout := s.networkTimeout }
          ({ s with processesDict := aset hostname (processList ++ [process]) s.processesDict },
            none)
        else
          (s, some .osError)
      else
        (s, none)

/-- `PluginsProcessPool.queue_plugin_task`: provision for the target's
hostname, then increment `_queued_tasks_nb` and put the task triple on the
hostname queue (aggressive command) or on the shared task queue. -/
def queuePluginTask (pick : List QueueId → Option QueueId) (spawnOk : Bool)
    (s : PoolState) (serverConnectivityInfo : ServerConnectivityInfo)
    (pluginCommand : PluginCommand) (pluginOptionsDict : List (String × String)) :
    PoolState × Option PoolErr :=
  match checkAndCreateProcess pick spawnOk s serverConnectivityInfo.hostname with
  | (s1, some e) => (s1, some e)
  | (s1, none) =>
    let s2 := { s1 with queuedTasksNb := s1.queuedTasksNb + 1 }
    let task : PluginTask :=
      { serverInfo := serverConnectivityInfo
        pluginCommand := pluginCommand
        pluginOptionsDict := pluginOptionsDict }
    if pluginCommand ∈ s2.availablePlugins.aggressiveCommands then
      match alookup serverConnectivityInfo.hostname s2.hostnameQueuesDict with
      | some q => (putItem s2 q (some task), none)
      | none => (s2, some .keyError)
    else
      (putItem s2 taskQueueId (some task), none)

/-- One `queue_plugin_task` request: the arguments of a single call. -/
structure Submission where
  serverInfo : ServerConnectivityInfo
  pluginCommand : PluginCommand
  pluginOptionsDict : List (String × String)
  deriving DecidableEq, Repr

/-- Run a sequence of `queue_plugin_task` calls, stopping at the first
raised exception. -/
def runQueue (pick : List QueueId → Option QueueId) (spawnOk : Bool) :
    List Submission → PoolState → PoolState × Option PoolErr
  | [], s => (s, none)
  | t :: rest, s =>
    match queuePluginTask pick spawnOk s t.serverInfo t.pluginCommand t.pluginOptionsDict with
    | (s1, some e) => (s1, some e)
    | (s1, none) => runQueue pick spawnOk rest s1

/-- The hostname-queue sentinel loop of `get_results`: for each
`(hostname, hostname_queue)` entry of `_hostname_queues_dict`, put
`len(_processes_dict[hostname])` sentinels on that queue.  `procs` is the
(unchanging) `_processes_dict`; a hostname absent from it would be a
`KeyError` in Python and contributes no sentinel here, a situation ruled
out by `HostsWf` on every reachable state. -/
def putHostnameSentinelsAux (procs : List (Hostname × List WorkerProcess)) :
    List (Hostname × QueueId) → PoolState → PoolState
  | [], s => s
  | (h, q) :: rest, s =>
    putHostnameSentinelsAux procs rest (putSentinels s q ((alookup h procs).getD []).length)

/-- The `while received_task_results != expected_task_results` loop of
`get_results`: pop items off the result stream, counting every pop and
yielding only non-`None` items.  The second argument is the number of pops
still owed; an exhausted stream is where Python would block forever. -/
def drainLoop : List (Option ScanResult) → Nat → Nat × List ScanResult
  | _, 0 => (0, [])
  | [], _ + 1 => (0, [])
  | none :: rest, n + 1 =>
    let (c, ys) := drainLoop rest n
    (c + 1, ys)
  | some r :: rest, n + 1 =>
    let (c, ys) := drainLoop rest n
    (c + 1, r :: ys)

/-- What one `get_results` call produces: the state after the sentinel
pushes, the final value of `received_task_results`, and the yielded
results in order. -/
structure DrainOutcome where
  finalState : PoolState
  receivedTaskResults : Nat
  yielded : List ScanResult
  deriving Repr

/-- `PluginsProcessPool.get_results`: push one sentinel on the shared task
queue per live process, push one sentinel on each hostname queue per
process dedicated to that hostname, then pop the result queue (modelled as
`resultStream`, the items workers placed there in arrival order) until
`_queued_tasks_nb + live processes` items have been received, yielding the
non-sentinel ones.  The trailing `join` calls only synchronize and do not
change the modelled state. -/
def getResults (s : PoolState) (resultStream : List (Option ScanResult)) : DrainOutcome :=
  let s1 := putSentinels s taskQueueId (getCurrentProcessesNb s)
  let s2 := putHostnameSentinelsAux s1.processesDict s1.hostnameQueuesDict s1
  let expectedTaskResults := s2.queuedTasksNb + getCurrentProcessesNb s2
  let popped := drainLoop resultStream expectedTaskResults
  { finalState := s2, receivedTaskResults := popped.1, yielded := popped.2 }

/-- Sum of the process-list lengths of a worker registry
(`_get_current_processes_nb` over an explicit dict). -/
def procSum (d : List (Hostname × List WorkerProcess)) : Nat :=
  (d.map (fun p => p.2.length)).sum

/-- A fixed `available_plugins` collaborator used in concrete runs:
`heartbleed` is the only aggressive command. -/
def plugins0 : AvailablePlugins :=
  { aggressiveCommands := ["heartbleed"], allCommands := ["certinfo", "heartbleed"] }

/-- Per-host cap actually enforced by the code: a host's process list never
grows beyond `max 1 m` entries (the brand-new-host branch creates one
process without consulting the per-host cap `m`). -/
def PerHostBound (d : List (Hostname × List WorkerProcess)) (m : Nat) : Prop :=
  ∀ h l, alookup h d = some l → l.length ≤ max 1 m

/-- The two registries of a pool stay key-synchronized: `queue_plugin_task`
always inserts a hostname into `_hostname_queues_dict` and
`_processes_dict` together.  Holds for every state reachable from the
constructor by successful calls. -/
def KeysAligned (s : PoolState) : Prop :=
  s.hostnameQueuesDict.map Prod.fst = s.processesDict.map Prod.fst

/-- Queue ids are allocated fresh: every id in the store or the hostname
registry is below `nextQueueId`, and ids 0 and 1 are reserved for the
shared task queue and the result queue.  Holds for every reachable
state. -/
def IdsFresh (s : PoolState) : Prop :=
  2 ≤ s.nextQueueId ∧ (∀ p ∈ s.queueStore, p.1 < s.nextQueueId) ∧
    ∀ p ∈ s.hostnameQueuesDict, p.2 < s.nextQueueId

instance KeysAligned.instDec (s : PoolState) : Decidable (KeysAligned s) :=
  inferInstanceAs
    (Decidable (s.hostnameQueuesDict.map Prod.fst = s.processesDict.map Prod.fst))

instance IdsFresh.instDec (s : PoolState) : Decidable (IdsFresh s) :=
  inferInstanceAs (Decidable (2 ≤ s.nextQueueId ∧
    (∀ p ∈ s.queueStore, p.1 < s.nextQueueId) ∧
    ∀ p ∈ s.hostnameQueuesDict, p.2 < s.nextQueueId))

/-- Total number of sentinels the hostname loop of `get_results` pushes
onto queue `q`: one per worker dedicated to each hostname mapped to `q`. -/
def hostnameSentinels (procs : List (Hostname × List WorkerProcess))
    (l : List (Hostname × QueueId)) (q : QueueId) : Nat :=
  ((l.filter (fun p => p.2 == q)).map
    (fun p => ((alookup p.1 procs).getD []).length)).sum

/-- Pool with one worker for host `a`, obtained by a single successful
submission to a freshly built pool with default-like caps. -/
def sampleState1 : PoolState :=
  (runQueue pick0 true
    [{ serverInfo := { hostname := "a" }, pluginCommand := "certinfo",
       pluginOptionsDict := [] }]
    (mkPool plugins0 3 5 12 3)).1

/-- The worker `sampleState1` holds for host `a`. -/
def sampleWorker : WorkerProcess :=
  { hostnameQueue := 2, taskQueue := taskQueueId, resultQueue := resultQueueId,
    availableCommands := plugins0.allCommands, networkRetries := 3, networkTimeout := 5 }

/-- State of Scenario C after its first step: global cap 1, one task
submitted for host `a`, so the single allowed worker exists. -/
def scenarioCState : PoolState :=
  (runQueue pick0 true
    [{ serverInfo := { hostname := "a" }, pluginCommand := "certinfo",
       pluginOptionsDict := [] }]
    (mkPool plugins0 3 5 1 3)).1

/-- All structural invariants of a live pool together: key-synchronized
registries, fresh queue-id allocation, and no hostname mapped to the
shared task queue. -/
def PoolInv (s : PoolState) : Prop :=
  KeysAligned s ∧ IdsFresh s ∧ ∀ p ∈ s.hostnameQueuesDict, p.2 ≠ taskQueueId

/-! ### Lemmas and claim theorems -/

theorem alookup_aset_self {α β : Type} [DecidableEq α] (k : α) (v : β)
    (d : List (α × β)) : alookup k (aset k v d) = some v := by
  induction d with
  | nil => simp [aset, alookup]
  | cons p rest ih =>
    obtain ⟨k', v'⟩ := p
    by_cases h : k = k'
    · simp [aset, alookup, h]
    · simp [aset, alookup, h, ih]

theorem alookup_aset_ne {α β : Type} [DecidableEq α] (k k' : α) (v : β)
    (d : List (α × β)) (h : k' ≠ k) :
    alookup k' (aset k v d) = alookup k' d := by
  induction d with
  | nil => simp [aset, alookup, h]
  | cons p rest ih =>
    obtain ⟨k₀, v₀⟩ := p
    by_cases hk : k = k₀
    · subst hk
      simp [aset, alookup, h]
    · by_cases hk' : k' = k₀
      · simp [aset, alookup, hk, hk']
      · simp [aset, alookup, hk, hk', ih]

theorem alookup_aset {α β : Type} [DecidableEq α] (k k' : α) (v : β)
    (d : List (α × β)) :
    alookup k' (aset k v d) = if k' = k then some v else alookup k' d := by
  by_cases h : k' = k
  · subst h; simp [alookup_aset_self]
  · simp [h, alookup_aset_ne k k' v d h]

theorem pick0_valid : PickValid pick0 := by
  constructor
  · intro l q h
    cases l with
    | nil => cases h
    | cons a rest =>
      simp [pick0] at h
      simp [h]
  · intro l h
    cases l with
    | nil => cases h rfl
    | cons a rest => simp [pick0]

theorem pickValid_empty (pick : List QueueId → Option QueueId) (hp : PickValid pick) :
    pick [] = none := by
  rcases h : pick [] with _ | q
  · rfl
  · cases hp.1 [] q h

theorem alookup_eq_none_iff {α β : Type} [DecidableEq α] (k : α) (d : List (α × β)) :
    alookup k d = none ↔ k ∉ d.map Prod.fst := by
  induction d with
  | nil => simp [alookup]
  | cons p rest ih =>
    obtain ⟨k', v'⟩ := p
    by_cases h : k = k'
    · simp [alookup, h]
    · simp [alookup, h, ih]

theorem alookup_isSome_iff {α β : Type} [DecidableEq α] (k : α) (d : List (α × β)) :
    (alookup k d).isSome ↔ k ∈ d.map Prod.fst := by
  rcases h : alookup k d with _ | v
  · rw [alookup_eq_none_iff] at h
    simp [h]
  · have : k ∈ d.map Prod.fst := by
      by_contra hk
      rw [← alookup_eq_none_iff k d] at hk
      rw [h] at hk
      cases hk
    simp [this]

theorem alookup_mem_values {α β : Type} [DecidableEq α] (k : α) (v : β)
    (d : List (α × β)) (h : alookup k d = some v) : v ∈ d.map Prod.snd := by
  induction d with
  | nil => simp [alookup] at h
  | cons p rest ih =>
    obtain ⟨k', v'⟩ := p
    by_cases hk : k = k'
    · simp [alookup, hk] at h
      simp [h]
    · simp [alookup, hk] at h
      simp [ih h]

theorem aset_map_fst_of_mem {α β : Type} [DecidableEq α] (k : α) (v : β)
    (d : List (α × β)) (h : k ∈ d.map Prod.fst) :
    (aset k v d).map Prod.fst = d.map Prod.fst := by
  induction d with
  | nil => simp at h
  | cons p rest ih =>
    obtain ⟨k', v'⟩ := p
    by_cases hk : k = k'
    · simp [aset, hk]
    · simp [hk] at h
      have hm : k ∈ rest.map Prod.fst := by simpa using h
      simp [aset, hk, ih hm]

theorem aset_map_fst_of_not_mem {α β : Type} [DecidableEq α] (k : α) (v : β)
    (d : List (α × β)) (h : k ∉ d.map Prod.fst) :
    (aset k v d).map Prod.fst = d.map Prod.fst ++ [k] := by
  induction d with
  | nil => simp [aset]
  | cons p rest ih =>
    obtain ⟨k', v'⟩ := p
    simp at h
    have hm : k ∉ rest.map Prod.fst := by simpa using h.2
    simp [aset, h.1, ih hm]

theorem getCurrentProcessesNb_eq_procSum (s : PoolState) :
    getCurrentProcessesNb s = procSum s.processesDict := rfl

theorem procSum_aset (k : Hostname) (v : List WorkerProcess)
    (d : List (Hostname × List WorkerProcess)) :
    procSum (aset k v d) + ((alookup k d).getD []).length = procSum d + v.length := by
  induction d with
  | nil => simp [aset, alookup, procSum]
  | cons p rest ih =>
    obtain ⟨k', v'⟩ := p
    by_cases h : k = k'
    · simp [aset, alookup, h, procSum]
      omega
    · simp only [aset, alookup, h, if_false, procSum, List.map_cons, List.sum_cons]
      simp only [procSum] at ih
      omega

theorem procSum_aset_le (k : Hostname) (v : List WorkerProcess)
    (d : List (Hostname × List WorkerProcess)) :
    procSum (aset k v d) ≤ procSum d + v.length := by
  have := procSum_aset k v d
  omega

theorem procSum_aset_not_mem (k : Hostname) (v : List WorkerProcess)
    (d : List (Hostname × List WorkerProcess)) (h : alookup k d = none) :
    procSum (aset k v d) = procSum d + v.length := by
  have := procSum_aset k v d
  rw [h] at this
  simpa using this

theorem procSum_aset_snoc (k : Hostname) (w : WorkerProcess)
    (l : List WorkerProcess) (d : List (Hostname × List WorkerProcess))
    (h : alookup k d = some l) :
    procSum (aset k (l ++ [w]) d) = procSum d + 1 := by
  have := procSum_aset k (l ++ [w]) d
  rw [h] at this
  simp at this
  omega

theorem queueItems_putItem (s : PoolState) (q q' : QueueId) (item : QItem) :
    queueItems (putItem s q item) q' =
      if q' = q then queueItems s q ++ [item] else queueItems s q' := by
  by_cases h : q' = q
  · simp [queueItems, putItem, h, alookup_aset_self]
  · simp [queueItems, putItem, h, alookup_aset_ne q q' _ _ h]

theorem queueItems_putSentinels (s : PoolState) (q q' : QueueId) (n : Nat) :
    queueItems (putSentinels s q n) q' =
      if q' = q then queueItems s q ++ List.replicate n none else queueItems s q' := by
  induction n generalizing s with
  | zero => by_cases h : q' = q <;> simp [putSentinels, h]
  | succ n ih =>
    rw [putSentinels, ih]
    by_cases h : q' = q
    · simp [h, queueItems_putItem, List.replicate_succ]
    · simp [h, queueItems_putItem]

theorem queueItems_snoc_nil (s s' : PoolState) (n q : QueueId)
    (hs : s'.queueStore = s.queueStore ++ [(n, [])]) :
    queueItems s' q = queueItems s q := by
  have key : ∀ d : List (QueueId × List QItem),
      (alookup q (d ++ [(n, ([] : List QItem))])).getD [] = (alookup q d).getD [] := by
    intro d
    induction d with
    | nil => by_cases h : q = n <;> simp [alookup, h]
    | cons p rest ih =>
      obtain ⟨k', v'⟩ := p
      by_cases h : q = k' <;> simp [alookup, h, ih]
  simp [queueItems, hs, key]

theorem check_queuedTasksNb (pick : List QueueId → Option QueueId) (sok : Bool)
    (s : PoolState) (h : Hostname) :
    ((checkAndCreateProcess pick sok s h).1).queuedTasksNb = s.queuedTasksNb := by
  unfold checkAndCreateProcess
  repeat' split
  all_goals rfl

theorem check_maxProcessesNb (pick : List QueueId → Option QueueId) (sok : Bool)
    (s : PoolState) (h : Hostname) :
    ((checkAndCreateProcess pick sok s h).1).maxProcessesNb = s.maxProcessesNb := by
  unfold checkAndCreateProcess
  repeat' split
  all_goals rfl

theorem check_maxPerHostname (pick : List QueueId → Option QueueId) (sok : Bool)
    (s : PoolState) (h : Hostname) :
    ((checkAndCreateProcess pick sok s h).1).maxProcessesPerHostnameNb =
      s.maxProcessesPerHostnameNb := by
  unfold checkAndCreateProcess
  repeat' split
  all_goals rfl

theorem check_availablePlugins (pick : List QueueId → Option QueueId) (sok : Bool)
    (s : PoolState) (h : Hostname) :
    ((checkAndCreateProcess pick sok s h).1).availablePlugins = s.availablePlugins := by
  unfold checkAndCreateProcess
  repeat' split
  all_goals rfl

theorem check_queueItems (pick : List QueueId → Option QueueId) (sok : Bool)
    (s : PoolState) (h : Hostname) (q : QueueId) :
    queueItems (checkAndCreateProcess pick sok s h).1 q = queueItems s q := by
  unfold checkAndCreateProcess
  repeat' split
  all_goals first
    | rfl
    | exact queueItems_snoc_nil s _ s.nextQueueId q rfl

theorem procSum_aset_one_le (k : Hostname) (w : WorkerProcess)
    (d : List (Hostname × List WorkerProcess)) (m : Nat) (hlt : procSum d < m) :
    procSum (aset k [w] d) ≤ m := by
  have hb := procSum_aset_le k [w] d
  simp at hb
  omega

theorem procSum_aset_nil_le (k : Hostname)
    (d : List (Hostname × List WorkerProcess)) (m : Nat) (hle : procSum d ≤ m) :
    procSum (aset k [] d) ≤ m := by
  have hb := procSum_aset_le k [] d
  simp at hb
  omega

theorem procSum_aset_snoc_le (k : Hostname) (w : WorkerProcess) (l : List WorkerProcess)
    (d : List (Hostname × List WorkerProcess)) (m : Nat)
    (hk : alookup k d = some l) (hlt : procSum d < m) :
    procSum (aset k (l ++ [w]) d) ≤ m := by
  rw [procSum_aset_snoc k w l d hk]
  omega

theorem check_count_le_max (pick : List QueueId → Option QueueId) (sok : Bool)
    (s : PoolState) (h : Hostname)
    (hle : getCurrentProcessesNb s ≤ s.maxProcessesNb) :
    getCurrentProcessesNb (checkAndCreateProcess pick sok s h).1 ≤ s.maxProcessesNb := by
  unfold checkAndCreateProcess
  split
  · -- hostname not seen before
    split
    · -- below the global cap: maybe create one worker
      split
      · rename_i hlt _
        exact procSum_aset_one_le h _ s.processesDict s.maxProcessesNb hlt
      · exact hle
    · -- at the global cap: reuse a queue, create nothing
      split
      · exact hle
      · exact procSum_aset_nil_le h s.processesDict s.maxProcessesNb hle
  · -- hostname seen before
    split
    · exact hle
    · split
      · split
        · rename_i hpl hcond _
          exact procSum_aset_snoc_le h _ _ s.processesDict s.maxProcessesNb hpl hcond.2
        · exact hle
      · exact hle

theorem check_count_le_succ (pick : List QueueId → Option QueueId) (sok : Bool)
    (s : PoolState) (h : Hostname) :
    getCurrentProcessesNb (checkAndCreateProcess pick sok s h).1 ≤
      getCurrentProcessesNb s + 1 := by
  unfold checkAndCreateProcess
  split
  · split
    · split
      · exact procSum_aset_one_le h _ s.processesDict _ (Nat.lt_succ_self _)
      · exact Nat.le_succ _
    · split
      · exact Nat.le_succ _
      · exact procSum_aset_nil_le h s.processesDict _ (Nat.le_succ _)
  · split
    · exact Nat.le_succ _
    · split
      · split
        · rename_i hpl _ _
          exact procSum_aset_snoc_le h _ _ s.processesDict _ hpl (Nat.lt_succ_self _)
        · exact Nat.le_succ _
      · exact Nat.le_succ _

theorem putItem_processesDict (s : PoolState) (q : QueueId) (item : QItem) :
    (putItem s q item).processesDict = s.processesDict := rfl

theorem putItem_queuedTasksNb (s : PoolState) (q : QueueId) (item : QItem) :
    (putItem s q item).queuedTasksNb = s.queuedTasksNb := rfl

theorem putItem_maxProcessesNb (s : PoolState) (q : QueueId) (item : QItem) :
    (putItem s q item).maxProcessesNb = s.maxProcessesNb := rfl

theorem putItem_maxPerHostname (s : PoolState) (q : QueueId) (item : QItem) :
    (putItem s q item).maxProcessesPerHostnameNb = s.maxProcessesPerHostnameNb := rfl

theorem putItem_hostnameQueuesDict (s : PoolState) (q : QueueId) (item : QItem) :
    (putItem s q item).hostnameQueuesDict = s.hostnameQueuesDict := rfl

theorem queuePluginTask_queuedTasksNb (pick : List QueueId → Option QueueId) (sok : Bool)
    (s s' : PoolState) (si : ServerConnectivityInfo) (cmd : PluginCommand)
    (opts : List (String × String))
    (hq : queuePluginTask pick sok s si cmd opts = (s', none)) :
    s'.queuedTasksNb = s.queuedTasksNb + 1 := by
  have hcq := check_queuedTasksNb pick sok s si.hostname
  unfold queuePluginTask at hq
  rcases he : checkAndCreateProcess pick sok s si.hostname with ⟨s1, e⟩
  rw [he] at hq hcq
  cases e with
  | some err => simp at hq
  | none =>
    simp only at hq
    split at hq
    · split at hq
      · cases hq
        simp [putItem_queuedTasksNb]
        exact hcq
      · cases hq
    · cases hq
      simp [putItem_queuedTasksNb]
      exact hcq

theorem queuePluginTask_processesDict (pick : List QueueId → Option QueueId) (sok : Bool)
    (s : PoolState) (si : ServerConnectivityInfo) (cmd : PluginCommand)
    (opts : List (String × String)) :
    ((queuePluginTask pick sok s si cmd opts).1).processesDict =
      ((checkAndCreateProcess pick sok s si.hostname).1).processesDict := by
  unfold queuePluginTask
  rcases he : checkAndCreateProcess pick sok s si.hostname with ⟨s1, e⟩
  cases e with
  | some err => rfl
  | none =>
    simp only
    split
    · split <;> rfl
    · rfl

theorem queuePluginTask_maxProcessesNb (pick : List QueueId → Option QueueId) (sok : Bool)
    (s : PoolState) (si : ServerConnectivityInfo) (cmd : PluginCommand)
    (opts : List (String × String)) :
    ((queuePluginTask pick sok s si cmd opts).1).maxProcessesNb = s.maxProcessesNb := by
  have hcm := check_maxProcessesNb pick sok s si.hostname
  unfold queuePluginTask
  rcases he : checkAndCreateProcess pick sok s si.hostname with ⟨s1, e⟩
  rw [he] at hcm
  cases e with
  | some err => exact hcm
  | none =>
    simp only
    split
    · split
      · simpa [putItem_maxProcessesNb] using hcm
      · exact hcm
    · simpa [putItem_maxProcessesNb] using hcm

theorem queuePluginTask_maxPerHostname (pick : List QueueId → Option QueueId) (sok : Bool)
    (s : PoolState) (si : ServerConnectivityInfo) (cmd : PluginCommand)
    (opts : List (String × String)) :
    ((queuePluginTask pick sok s si cmd opts).1).maxProcessesPerHostnameNb =
      s.maxProcessesPerHostnameNb := by
  have hcm := check_maxPerHostname pick sok s si.hostname
  unfold queuePluginTask
  rcases he : checkAndCreateProcess pick sok s si.hostname with ⟨s1, e⟩
  rw [he] at hcm
  cases e with
  | some err => exact hcm
  | none =>
    simp only
    split
    · split
      · simpa [putItem_maxPerHostname] using hcm
      · exact hcm
    · simpa [putItem_maxPerHostname] using hcm

theorem queuePluginTask_count_le_max (pick : List QueueId → Option QueueId) (sok : Bool)
    (s : PoolState) (si : ServerConnectivityInfo) (cmd : PluginCommand)
    (opts : List (String × String))
    (hle : getCurrentProcessesNb s ≤ s.maxProcessesNb) :
    getCurrentProcessesNb (queuePluginTask pick sok s si cmd opts).1 ≤ s.maxProcessesNb := by
  have hc := check_count_le_max pick sok s si.hostname hle
  have hp := queuePluginTask_processesDict pick sok s si cmd opts
  rw [getCurrentProcessesNb_eq_procSum, hp]
  exact hc

theorem runQueue_maxProcessesNb (pick : List QueueId → Option QueueId) (sok : Bool)
    (subs : List Submission) (s : PoolState) :
    ((runQueue pick sok subs s).1).maxProcessesNb = s.maxProcessesNb := by
  induction subs generalizing s with
  | nil => rfl
  | cons t rest ih =>
    unfold runQueue
    rcases he : queuePluginTask pick sok s t.serverInfo t.pluginCommand t.pluginOptionsDict
      with ⟨s1, e⟩
    have hm := queuePluginTask_maxProcessesNb pick sok s t.serverInfo t.pluginCommand
      t.pluginOptionsDict
    rw [he] at hm
    cases e with
    | some err => exact hm
    | none =>
      simp only
      rw [ih s1, hm]

theorem runQueue_maxPerHostname (pick : List QueueId → Option QueueId) (sok : Bool)
    (subs : List Submission) (s : PoolState) :
    ((runQueue pick sok subs s).1).maxProcessesPerHostnameNb =
      s.maxProcessesPerHostnameNb := by
  induction subs generalizing s with
  | nil => rfl
  | cons t rest ih =>
    unfold runQueue
    rcases he : queuePluginTask pick sok s t.serverInfo t.pluginCommand t.pluginOptionsDict
      with ⟨s1, e⟩
    have hm := queuePluginTask_maxPerHostname pick sok s t.serverInfo t.pluginCommand
      t.pluginOptionsDict
    rw [he] at hm
    cases e with
    | some err => exact hm
    | none =>
      simp only
      rw [ih s1, hm]

theorem runQueue_count_le_max (pick : List QueueId → Option QueueId) (sok : Bool)
    (subs : List Submission) (s : PoolState)
    (hle : getCurrentProcessesNb s ≤ s.maxProcessesNb) :
    getCurrentProcessesNb (runQueue pick sok subs s).1 ≤ s.maxProcessesNb := by
  induction subs generalizing s with
  | nil => exact hle
  | cons t rest ih =>
    unfold runQueue
    rcases he : queuePluginTask pick sok s t.serverInfo t.pluginCommand t.pluginOptionsDict
      with ⟨s1, e⟩
    have hc := queuePluginTask_count_le_max pick sok s t.serverInfo t.pluginCommand
      t.pluginOptionsDict hle
    have hm := queuePluginTask_maxProcessesNb pick sok s t.serverInfo t.pluginCommand
      t.pluginOptionsDict
    rw [he] at hc hm
    cases e with
    | some err => exact hc
    | none =>
      simp only
      have := ih s1 (by rw [hm]; exact hc)
      rw [hm] at this
      exact this

theorem runQueue_queuedTasksNb (pick : List QueueId → Option QueueId) (sok : Bool)
    (subs : List Submission) (s s' : PoolState)
    (hr : runQueue pick sok subs s = (s', none)) :
    s'.queuedTasksNb = s.queuedTasksNb + subs.length := by
  induction subs generalizing s with
  | nil =>
    cases hr
    rfl
  | cons t rest ih =>
    unfold runQueue at hr
    rcases he : queuePluginTask pick sok s t.serverInfo t.pluginCommand t.pluginOptionsDict
      with ⟨s1, e⟩
    rw [he] at hr
    cases e with
    | some err => cases hr
    | none =>
      have h1 := queuePluginTask_queuedTasksNb pick sok s s1 t.serverInfo t.pluginCommand
        t.pluginOptionsDict he
      have h2 := ih s1 hr
      rw [h2, h1, List.length_cons]
      omega

theorem perHostBound_aset (d : List (Hostname × List WorkerProcess)) (m : Nat)
    (h : Hostname) (v : List WorkerProcess)
    (hb : PerHostBound d m) (hv : v.length ≤ max 1 m) :
    PerHostBound (aset h v d) m := by
  intro h' l' hl'
  rw [alookup_aset] at hl'
  by_cases hh : h' = h
  · rw [if_pos hh] at hl'
    cases hl'
    exact hv
  · rw [if_neg hh] at hl'
    exact hb h' l' hl'

theorem check_perHostBound (pick : List QueueId → Option QueueId) (sok : Bool)
    (s : PoolState) (h : Hostname)
    (hb : PerHostBound s.processesDict s.maxProcessesPerHostnameNb) :
    PerHostBound ((checkAndCreateProcess pick sok s h).1).processesDict
      s.maxProcessesPerHostnameNb := by
  unfold checkAndCreateProcess
  split
  · split
    · split
      · exact perHostBound_aset s.processesDict _ h _ hb
          (by simp [Nat.le_max_left])
      · exact hb
    · split
      · exact hb
      · exact perHostBound_aset s.processesDict _ h [] hb (by simp)
  · split
    · exact hb
    · split
      · split
        · rename_i hpl hcond _
          refine perHostBound_aset s.processesDict _ h _ hb ?_
          simp only [List.length_append, List.length_cons, List.length_nil]
          have := hcond.1
          omega
        · exact hb
      · exact hb

theorem queuePluginTask_perHostBound (pick : List QueueId → Option QueueId) (sok : Bool)
    (s : PoolState) (si : ServerConnectivityInfo) (cmd : PluginCommand)
    (opts : List (String × String))
    (hb : PerHostBound s.processesDict s.maxProcessesPerHostnameNb) :
    PerHostBound ((queuePluginTask pick sok s si cmd opts).1).processesDict
      s.maxProcessesPerHostnameNb := by
  rw [queuePluginTask_processesDict]
  exact check_perHostBound pick sok s si.hostname hb

theorem runQueue_perHostBound (pick : List QueueId → Option QueueId) (sok : Bool)
    (subs : List Submission) (s : PoolState)
    (hb : PerHostBound s.processesDict s.maxProcessesPerHostnameNb) :
    PerHostBound ((runQueue pick sok subs s).1).processesDict
      s.maxProcessesPerHostnameNb := by
  induction subs generalizing s with
  | nil => exact hb
  | cons t rest ih =>
    unfold runQueue
    rcases he : queuePluginTask pick sok s t.serverInfo t.pluginCommand t.pluginOptionsDict
      with ⟨s1, e⟩
    have hp := queuePluginTask_perHostBound pick sok s t.serverInfo t.pluginCommand
      t.pluginOptionsDict hb
    have hm := queuePluginTask_maxPerHostname pick sok s t.serverInfo t.pluginCommand
      t.pluginOptionsDict
    rw [he] at hp hm
    cases e with
    | some err => exact hp
    | none =>
      simp only
      have := ih s1 (by rw [hm]; exact hp)
      rw [hm] at this
      exact this

theorem keysAligned_alookup_none (s : PoolState) (h : Hostname)
    (hk : KeysAligned s) (hq : alookup h s.hostnameQueuesDict = none) :
    alookup h s.processesDict = none := by
  rw [alookup_eq_none_iff] at hq ⊢
  rw [← hk]
  exact hq

theorem alookup_aset_keep {α β : Type} [DecidableEq α] (k : α) (v : β)
    (d : List (α × β)) (hd : alookup k d = none) (k' : α) (l : β)
    (hl : alookup k' d = some l) : alookup k' (aset k v d) = some l := by
  have hne : k' ≠ k := by
    rintro rfl
    rw [hd] at hl
    cases hl
  rw [alookup_aset_ne k k' v d hne]
  exact hl

theorem putSentinels_processesDict (s : PoolState) (q : QueueId) (n : Nat) :
    (putSentinels s q n).processesDict = s.processesDict := by
  induction n generalizing s with
  | zero => rfl
  | succ n ih =>
    rw [putSentinels, ih]
    rfl

theorem putSentinels_hostnameQueuesDict (s : PoolState) (q : QueueId) (n : Nat) :
    (putSentinels s q n).hostnameQueuesDict = s.hostnameQueuesDict := by
  induction n generalizing s with
  | zero => rfl
  | succ n ih =>
    rw [putSentinels, ih]
    rfl

theorem putSentinels_queuedTasksNb (s : PoolState) (q : QueueId) (n : Nat) :
    (putSentinels s q n).queuedTasksNb = s.queuedTasksNb := by
  induction n generalizing s with
  | zero => rfl
  | succ n ih =>
    rw [putSentinels, ih]
    rfl

theorem putHostnameSentinelsAux_processesDict
    (procs : List (Hostname × List WorkerProcess)) (l : List (Hostname × QueueId))
    (s : PoolState) :
    (putHostnameSentinelsAux procs l s).processesDict = s.processesDict := by
  induction l generalizing s with
  | nil => rfl
  | cons p rest ih =>
    obtain ⟨h, q⟩ := p
    rw [putHostnameSentinelsAux, ih, putSentinels_processesDict]

theorem putHostnameSentinelsAux_queuedTasksNb
    (procs : List (Hostname × List WorkerProcess)) (l : List (Hostname × QueueId))
    (s : PoolState) :
    (putHostnameSentinelsAux procs l s).queuedTasksNb = s.queuedTasksNb := by
  induction l generalizing s with
  | nil => rfl
  | cons p rest ih =>
    obtain ⟨h, q⟩ := p
    rw [putHostnameSentinelsAux, ih, putSentinels_queuedTasksNb]

theorem hostnameSentinels_cons_self (procs : List (Hostname × List WorkerProcess))
    (h0 : Hostname) (q : QueueId) (rest : List (Hostname × QueueId)) :
    hostnameSentinels procs ((h0, q) :: rest) q =
      ((alookup h0 procs).getD []).length + hostnameSentinels procs rest q := by
  simp [hostnameSentinels]

theorem hostnameSentinels_cons_ne (procs : List (Hostname × List WorkerProcess))
    (h0 : Hostname) (q0 q : QueueId) (rest : List (Hostname × QueueId))
    (hne : (q0 == q) = false) :
    hostnameSentinels procs ((h0, q0) :: rest) q = hostnameSentinels procs rest q := by
  simp [hostnameSentinels, hne]

theorem queueItems_putHostnameSentinelsAux
    (procs : List (Hostname × List WorkerProcess)) (l : List (Hostname × QueueId))
    (s : PoolState) (q : QueueId) :
    queueItems (putHostnameSentinelsAux procs l s) q =
      queueItems s q ++ List.replicate (hostnameSentinels procs l q) none := by
  induction l generalizing s with
  | nil => simp [putHostnameSentinelsAux, hostnameSentinels]
  | cons p rest ih =>
    obtain ⟨h0, q0⟩ := p
    rw [putHostnameSentinelsAux, ih, queueItems_putSentinels]
    by_cases hq : q = q0
    · subst hq
      rw [if_pos rfl, hostnameSentinels_cons_self, List.append_assoc,
        ← List.replicate_add]
    · have hne : (q0 == q) = false := by
        rw [beq_eq_false_iff_ne]
        intro hc
        exact hq hc.symm
      rw [if_neg hq, hostnameSentinels_cons_ne procs h0 q0 q rest hne]

theorem drainLoop_received (stream : List (Option ScanResult)) (n : Nat)
    (hn : n ≤ stream.length) : (drainLoop stream n).1 = n := by
  induction n generalizing stream with
  | zero => cases stream with
    | nil => rfl
    | cons o rest => cases o <;> rfl
  | succ n ih =>
    cases stream with
    | nil => simp at hn
    | cons o rest =>
      simp only [List.length_cons, Nat.succ_le_succ_iff] at hn
      cases o with
      | none => simp [drainLoop, ih rest hn]
      | some r => simp [drainLoop, ih rest hn]

theorem drainLoop_yielded (stream : List (Option ScanResult)) (n : Nat)
    (hn : n ≤ stream.length) :
    (drainLoop stream n).2 = (stream.take n).filterMap id := by
  induction n generalizing stream with
  | zero => cases stream with
    | nil => simp [drainLoop]
    | cons o rest => cases o <;> simp [drainLoop]
  | succ n ih =>
    cases stream with
    | nil => simp at hn
    | cons o rest =>
      simp only [List.length_cons, Nat.succ_le_succ_iff] at hn
      cases o with
      | none => simp [drainLoop, ih rest hn]
      | some r => simp [drainLoop, ih rest hn]

theorem length_filterMap_id_add {α : Type} (l : List (Option α)) :
    (l.filterMap id).length + l.countP (fun o => o.isNone) = l.length := by
  induction l with
  | nil => rfl
  | cons o rest ih =>
    cases o with
    | none =>
      have hf : List.filterMap id (none :: rest) = List.filterMap id rest := by
        simp
      have hc : List.countP (fun o : Option α => o.isNone) (none :: rest) =
          List.countP (fun o : Option α => o.isNone) rest + 1 := by
        simp [List.countP_cons]
      rw [hf, hc, List.length_cons]
      omega
    | some a =>
      have hf : List.filterMap id (some a :: rest) = a :: List.filterMap id rest := by
        simp
      have hc : List.countP (fun o : Option α => o.isNone) (some a :: rest) =
          List.countP (fun o : Option α => o.isNone) rest := by
        simp [List.countP_cons]
      rw [hf, hc, List.length_cons, List.length_cons]
      omega

/-- C3: for every sequence of `queue_plugin_task` calls on a pool built
with global cap `m`, the total live worker count (the sum of the lengths of
all process lists in `_processes_dict`) never exceeds `m`; since `subs`
ranges over all sequences, every intermediate state of a run is the final
state of some shorter run and the bound holds at every point. -/
theorem global_cap_invariant (pick : List QueueId → Option QueueId) (sok : Bool)
    (plugins : AvailablePlugins) (nr nt m mh : Nat) (subs : List Submission) :
    getCurrentProcessesNb (runQueue pick sok subs (mkPool plugins nr nt m mh)).1 ≤ m := by
  have h0 : getCurrentProcessesNb (mkPool plugins nr nt m mh) ≤
      (mkPool plugins nr nt m mh).maxProcessesNb := by
    simp [mkPool, getCurrentProcessesNb]
  simpa [mkPool] using
    runQueue_count_le_max pick sok subs (mkPool plugins nr nt m mh) h0

/-- C4 counterexample: with per-host cap 0 and free global capacity, the
first task for the unseen host `a` still creates one dedicated worker, so
the per-host worker count 1 exceeds `max_processes_per_hostname_nb = 0`. -/
theorem per_host_cap_counterexample :
    ((alookup "a" ((runQueue pick0 true
        [{ serverInfo := { hostname := "a" }, pluginCommand := "certinfo",
           pluginOptionsDict := [] }]
        (mkPool plugins0 3 5 12 0)).1).processesDict).getD []).length = 1 ∧
      ¬ ((alookup "a" ((runQueue pick0 true
        [{ serverInfo := { hostname := "a" }, pluginCommand := "certinfo",
           pluginOptionsDict := [] }]
        (mkPool plugins0 3 5 12 0)).1).processesDict).getD []).length ≤
        (mkPool plugins0 3 5 12 0).maxProcessesPerHostnameNb := by
  constructor
  · rfl
  · decide

/-- C4 amended: for every sequence of `queue_plugin_task` calls and every
hostname, the number of workers dedicated to that hostname never exceeds
`max 1 max_processes_per_hostname_nb`: the stated bound
`max_processes_per_hostname_nb` holds whenever that cap is at least 1, but
a brand-new host always receives one worker even when the cap is 0,
because the never-seen-before branch does not consult the per-host cap. -/
theorem per_host_cap_amended (pick : List QueueId → Option QueueId) (sok : Bool)
    (plugins : AvailablePlugins) (nr nt m mh : Nat) (subs : List Submission)
    (h : Hostname) :
    ((alookup h ((runQueue pick sok subs
        (mkPool plugins nr nt m mh)).1).processesDict).getD []).length ≤ max 1 mh := by
  have hb : PerHostBound (mkPool plugins nr nt m mh).processesDict
      (mkPool plugins nr nt m mh).maxProcessesPerHostnameNb := by
    intro h' l' hl'
    cases hl'
  have hr := runQueue_perHostBound pick sok subs (mkPool plugins nr nt m mh) hb
  rcases hl : alookup h ((runQueue pick sok subs
      (mkPool plugins nr nt m mh)).1).processesDict with _ | l
  · simp
  · simpa [mkPool] using hr h l hl

/-- C8: one `_check_and_create_process` call on a key-synchronized pool
never removes a worker or a hostname queue from the registries — every old
worker-registry entry survives, at most extended at its tail, and every
hostname keeps its queue — and the live worker count grows by at most
one. -/
theorem provisioning_monotone (pick : List QueueId → Option QueueId) (sok : Bool)
    (s : PoolState) (h : Hostname) (hk : KeysAligned s) :
    (∀ h' l, alookup h' s.processesDict = some l →
      ∃ l2, alookup h' ((checkAndCreateProcess pick sok s h).1).processesDict = some l2 ∧
        ∃ extra, l2 = l ++ extra) ∧
    (∀ h' q, alookup h' s.hostnameQueuesDict = some q →
      alookup h' ((checkAndCreateProcess pick sok s h).1).hostnameQueuesDict = some q) ∧
    getCurrentProcessesNb (checkAndCreateProcess pick sok s h).1 ≤
      getCurrentProcessesNb s + 1 := by
  refine ⟨?_, ?_, check_count_le_succ pick sok s h⟩
  · intro h' l hl
    unfold checkAndCreateProcess
    split
    · rename_i heq
      have hpn := keysAligned_alookup_none s h hk heq
      split
      · split
        · exact ⟨l, alookup_aset_keep h _ s.processesDict hpn h' l hl, [], by simp⟩
        · exact ⟨l, hl, [], by simp⟩
      · split
        · exact ⟨l, hl, [], by simp⟩
        · exact ⟨l, alookup_aset_keep h _ s.processesDict hpn h' l hl, [], by simp⟩
    · split
      · exact ⟨l, hl, [], by simp⟩
      · split
        · split
          · rename_i hpl _ _
            by_cases hh : h' = h
            · subst hh
              rw [hl] at hpl
              cases hpl
              exact ⟨l ++ _, by rw [alookup_aset_self], _, rfl⟩
            · exact ⟨l, by rw [alookup_aset_ne h h' _ _ hh]; exact hl, [], by simp⟩
          · exact ⟨l, hl, [], by simp⟩
        · exact ⟨l, hl, [], by simp⟩
  · intro h' q hq
    unfold checkAndCreateProcess
    split
    · rename_i heq
      split
      · split
        · exact alookup_aset_keep h _ s.hostnameQueuesDict heq h' q hq
        · exact alookup_aset_keep h _ s.hostnameQueuesDict heq h' q hq
      · split
        · exact hq
        · exact alookup_aset_keep h _ s.hostnameQueuesDict heq h' q hq
    · split
      · exact hq
      · split
        · split
          · exact hq
          · exact hq
        · exact hq

/-- Witness for C8 at a concrete pool: provisioning host `b` on a pool that
already serves host `a` keeps `a`'s worker list as an extension and adds at
most one worker. -/
theorem provisioning_monotone_witness :
    (∃ l2, alookup "a" ((checkAndCreateProcess pick0 true sampleState1 "b").1).processesDict
        = some l2 ∧ ∃ extra, l2 = [sampleWorker] ++ extra) ∧
    getCurrentProcessesNb (checkAndCreateProcess pick0 true sampleState1 "b").1 ≤
      getCurrentProcessesNb sampleState1 + 1 :=
  ⟨(provisioning_monotone pick0 true sampleState1 "b" (by decide)).1 "a" [sampleWorker]
      (by decide),
    (provisioning_monotone pick0 true sampleState1 "b" (by decide)).2.2⟩

/-- C5: provisioning an unseen hostname while the live worker count has
reached the global cap maps the hostname to a queue already in the
registry, records an empty worker list for it, creates no worker, and
raises nothing. -/
theorem cap_reached_reuses_queue (pick : List QueueId → Option QueueId) (sok : Bool)
    (s : PoolState) (h : Hostname) (hp : PickValid pick) (hk : KeysAligned s)
    (hnew : alookup h s.hostnameQueuesDict = none)
    (hcap : ¬ getCurrentProcessesNb s < s.maxProcessesNb)
    (hne : s.hostnameQueuesDict ≠ []) :
    ∃ q, q ∈ s.hostnameQueuesDict.map Prod.snd ∧
      alookup h ((checkAndCreateProcess pick sok s h).1).hostnameQueuesDict = some q ∧
      alookup h ((checkAndCreateProcess pick sok s h).1).processesDict = some [] ∧
      getCurrentProcessesNb (checkAndCreateProcess pick sok s h).1 =
        getCurrentProcessesNb s ∧
      (checkAndCreateProcess pick sok s h).2 = none := by
  have hvals : s.hostnameQueuesDict.map Prod.snd ≠ [] := by
    intro hc
    exact hne (List.map_eq_nil_iff.mp hc)
  have hsome := hp.2 _ hvals
  rcases hq : pick (s.hostnameQueuesDict.map Prod.snd) with _ | q
  · rw [hq] at hsome
    cases hsome
  · have hmem := hp.1 _ q hq
    have hpn := keysAligned_alookup_none s h hk hnew
    have hred : checkAndCreateProcess pick sok s h =
        ({ s with hostnameQueuesDict := aset h q s.hostnameQueuesDict,
                  processesDict := aset h [] s.processesDict }, none) := by
      unfold checkAndCreateProcess
      rw [hnew]
      simp [hq, if_neg hcap]
    refine ⟨q, hmem, ?_, ?_, ?_, ?_⟩
    · rw [hred]
      exact alookup_aset_self h q s.hostnameQueuesDict
    · rw [hred]
      exact alookup_aset_self h [] s.processesDict
    · rw [hred]
      show procSum (aset h [] s.processesDict) = procSum s.processesDict
      have := procSum_aset_not_mem h [] s.processesDict hpn
      simpa using this
    · rw [hred]

/-- Witness for C5, Scenario C: with global cap 1 and host `a` already
served, provisioning host `b` reuses `a`'s queue, gives `b` an empty worker
list, and the pool still has exactly one worker. -/
theorem cap_reached_reuses_queue_witness :
    (∃ q, q ∈ scenarioCState.hostnameQueuesDict.map Prod.snd ∧
      alookup "b" ((checkAndCreateProcess pick0 true scenarioCState "b").1).hostnameQueuesDict
        = some q ∧
      alookup "b" ((checkAndCreateProcess pick0 true scenarioCState "b").1).processesDict
        = some [] ∧
      getCurrentProcessesNb (checkAndCreateProcess pick0 true scenarioCState "b").1 =
        getCurrentProcessesNb scenarioCState ∧
      (checkAndCreateProcess pick0 true scenarioCState "b").2 = none) ∧
    getCurrentProcessesNb scenarioCState = 1 :=
  ⟨cap_reached_reuses_queue pick0 true scenarioCState "b" pick0_valid (by decide)
      (by decide) (by decide) (by decide),
    by decide⟩

/-- C6: provisioning an unseen hostname while strictly below the global cap
registers the freshly allocated queue id for that hostname, appends the new
empty queue to the store, and registers exactly one new worker bound to the
shared task queue and to that new queue. -/
theorem below_cap_creates_worker (pick : List QueueId → Option QueueId)
    (s : PoolState) (h : Hostname) (hk : KeysAligned s) (hf : IdsFresh s)
    (hnew : alookup h s.hostnameQueuesDict = none)
    (hcap : getCurrentProcessesNb s < s.maxProcessesNb) :
    (checkAndCreateProcess pick true s h).2 = none ∧
    alookup h ((checkAndCreateProcess pick true s h).1).hostnameQueuesDict =
      some s.nextQueueId ∧
    s.nextQueueId ∉ s.hostnameQueuesDict.map Prod.snd ∧
    ((checkAndCreateProcess pick true s h).1).queueStore =
      s.queueStore ++ [(s.nextQueueId, [])] ∧
    (∃ w : WorkerProcess,
      alookup h ((checkAndCreateProcess pick true s h).1).processesDict = some [w] ∧
      w.hostnameQueue = s.nextQueueId ∧ w.taskQueue = taskQueueId ∧
      w.resultQueue = resultQueueId) ∧
    getCurrentProcessesNb (checkAndCreateProcess pick true s h).1 =
      getCurrentProcessesNb s + 1 := by
  have hpn := keysAligned_alookup_none s h hk hnew
  have hfresh : s.nextQueueId ∉ s.hostnameQueuesDict.map Prod.snd := by
    intro hmem
    rcases List.mem_map.mp hmem with ⟨p, hmemp, hpq⟩
    have hlt := hf.2.2 p hmemp
    rw [hpq] at hlt
    exact Nat.lt_irrefl _ hlt
  have hred : checkAndCreateProcess pick true s h =
      ({ s with
          hostnameQueuesDict := aset h s.nextQueueId s.hostnameQueuesDict,
          processesDict := aset h
            [{ hostnameQueue := s.nextQueueId, taskQueue := taskQueueId,
               resultQueue := resultQueueId,
               availableCommands := s.availablePlugins.allCommands,
               networkRetries := s.networkRetries,
               networkTimeout := s.networkTimeout }] s.processesDict,
          queueStore := s.queueStore ++ [(s.nextQueueId, [])],
          nextQueueId := s.nextQueueId + 1 }, none) := by
    unfold checkAndCreateProcess
    rw [hnew]
    simp [if_pos hcap]
  refine ⟨?_, ?_, hfresh, ?_, ?_, ?_⟩
  · rw [hred]
  · rw [hred]
    exact alookup_aset_self h s.nextQueueId s.hostnameQueuesDict
  · rw [hred]
  · rw [hred]
    exact ⟨_, alookup_aset_self h _ s.processesDict, rfl, rfl, rfl⟩
  · rw [hred]
    show procSum (aset h _ s.processesDict) = procSum s.processesDict + 1
    rw [procSum_aset_not_mem h _ s.processesDict hpn]
    rfl

/-- Witness for C6: the first submission ever, for host `a` on a fresh
pool, registers the fresh queue id 2 for `a` and creates one worker bound
to the shared task queue and to that new queue. -/
theorem below_cap_creates_worker_witness :
    (checkAndCreateProcess pick0 true (mkPool plugins0 3 5 12 3) "a").2 = none ∧
    alookup "a" ((checkAndCreateProcess pick0 true
      (mkPool plugins0 3 5 12 3) "a").1).hostnameQueuesDict =
      some (mkPool plugins0 3 5 12 3).nextQueueId ∧
    (mkPool plugins0 3 5 12 3).nextQueueId ∉
      (mkPool plugins0 3 5 12 3).hostnameQueuesDict.map Prod.snd ∧
    ((checkAndCreateProcess pick0 true (mkPool plugins0 3 5 12 3) "a").1).queueStore =
      (mkPool plugins0 3 5 12 3).queueStore ++
        [((mkPool plugins0 3 5 12 3).nextQueueId, [])] ∧
    (∃ w : WorkerProcess,
      alookup "a" ((checkAndCreateProcess pick0 true
        (mkPool plugins0 3 5 12 3) "a").1).processesDict = some [w] ∧
      w.hostnameQueue = (mkPool plugins0 3 5 12 3).nextQueueId ∧
      w.taskQueue = taskQueueId ∧ w.resultQueue = resultQueueId) ∧
    getCurrentProcessesNb (checkAndCreateProcess pick0 true
        (mkPool plugins0 3 5 12 3) "a").1 =
      getCurrentProcessesNb (mkPool plugins0 3 5 12 3) + 1 :=
  below_cap_creates_worker pick0 (mkPool plugins0 3 5 12 3) "a" (by decide) (by decide)
    (by decide) (by decide)

/-- C7: a `queue_plugin_task` call that returns (Python returns `None`:
the call produces no value and only mutates the pool) increments
`_queued_tasks_nb` by exactly one and appends the task triple to exactly
one queue — the hostname's queue when the command is aggressive, the
shared task queue otherwise — leaving every other queue's contents
unchanged. -/
theorem dispatch_routes_one_queue (pick : List QueueId → Option QueueId) (sok : Bool)
    (s s' : PoolState) (si : ServerConnectivityInfo) (cmd : PluginCommand)
    (opts : List (String × String))
    (hq : queuePluginTask pick sok s si cmd opts = (s', none)) :
    s'.queuedTasksNb = s.queuedTasksNb + 1 ∧
    ∃ q, queueItems s' q = queueItems s q ++
        [some { serverInfo := si, pluginCommand := cmd, pluginOptionsDict := opts }] ∧
      (∀ q', q' ≠ q → queueItems s' q' = queueItems s q') ∧
      (cmd ∈ s.availablePlugins.aggressiveCommands →
        alookup si.hostname s'.hostnameQueuesDict = some q) ∧
      (cmd ∉ s.availablePlugins.aggressiveCommands → q = taskQueueId) := by
  refine ⟨queuePluginTask_queuedTasksNb pick sok s s' si cmd opts hq, ?_⟩
  have hqi := check_queueItems pick sok s si.hostname
  have hap := check_availablePlugins pick sok s si.hostname
  unfold queuePluginTask at hq
  rcases he : checkAndCreateProcess pick sok s si.hostname with ⟨s1, e⟩
  rw [he] at hq hqi hap
  cases e with
  | some err => cases hq
  | none =>
    simp only at hq
    split at hq
    · rename_i hagg
      split at hq
      · rename_i q hlook
        cases hq
        refine ⟨q, ?_, ?_, ?_, ?_⟩
        · rw [queueItems_putItem]
          rw [if_pos rfl]
          show queueItems s1 q ++ _ = _
          rw [hqi q]
        · intro q' hne
          rw [queueItems_putItem]
          rw [if_neg hne]
          exact hqi q'
        · intro _
          rw [putItem_hostnameQueuesDict]
          exact hlook
        · intro hnot
          rw [hap] at hagg
          cases hnot hagg
      · cases hq
    · rename_i hagg
      cases hq
      rw [hap] at hagg
      refine ⟨taskQueueId, ?_, ?_, fun hmem => absurd hmem hagg, fun _ => rfl⟩
      · rw [queueItems_putItem]
        rw [if_pos rfl]
        show queueItems s1 taskQueueId ++ _ = _
        rw [hqi taskQueueId]
      · intro q' hne
        rw [queueItems_putItem]
        rw [if_neg hne]
        exact hqi q'

/-- Witness for C7: submitting the aggressive command `heartbleed` for host
`a` on a fresh pool bumps the counter from 0 to 1 and lands the triple on
exactly one queue, host `a`'s. -/
theorem dispatch_routes_one_queue_witness :
    ((queuePluginTask pick0 true (mkPool plugins0 3 5 12 3)
        { hostname := "a" } "heartbleed" []).1).queuedTasksNb =
      (mkPool plugins0 3 5 12 3).queuedTasksNb + 1 ∧
    ∃ q, queueItems (queuePluginTask pick0 true (mkPool plugins0 3 5 12 3)
          { hostname := "a" } "heartbleed" []).1 q =
        queueItems (mkPool plugins0 3 5 12 3) q ++
          [some { serverInfo := { hostname := "a" }, pluginCommand := "heartbleed",
                  pluginOptionsDict := [] }] ∧
      (∀ q', q' ≠ q →
        queueItems (queuePluginTask pick0 true (mkPool plugins0 3 5 12 3)
          { hostname := "a" } "heartbleed" []).1 q' =
        queueItems (mkPool plugins0 3 5 12 3) q') ∧
      ("heartbleed" ∈ (mkPool plugins0 3 5 12 3).availablePlugins.aggressiveCommands →
        alookup "a" ((queuePluginTask pick0 true (mkPool plugins0 3 5 12 3)
          { hostname := "a" } "heartbleed" []).1).hostnameQueuesDict = some q) ∧
      ("heartbleed" ∉ (mkPool plugins0 3 5 12 3).availablePlugins.aggressiveCommands →
        q = taskQueueId) :=
  dispatch_routes_one_queue pick0 true (mkPool plugins0 3 5 12 3) _
    { hostname := "a" } "heartbleed" [] rfl

/-- C9: `queue_plugin_task` is atomic when provisioning raises — the
exception propagates with the counter untouched and every queue's contents
unchanged, because the increment and the `put` happen only after
`_check_and_create_process` returns. -/
theorem dispatch_atomic_on_failure (pick : List QueueId → Option QueueId) (sok : Bool)
    (s s1 : PoolState) (si : ServerConnectivityInfo) (cmd : PluginCommand)
    (opts : List (String × String)) (e : PoolErr)
    (he : checkAndCreateProcess pick sok s si.hostname = (s1, some e)) :
    queuePluginTask pick sok s si cmd opts = (s1, some e) ∧
    s1.queuedTasksNb = s.queuedTasksNb ∧
    ∀ q, queueItems s1 q = queueItems s q := by
  have hqt := check_queuedTasksNb pick sok s si.hostname
  have hqi := check_queueItems pick sok s si.hostname
  rw [he] at hqt hqi
  refine ⟨?_, hqt, hqi⟩
  unfold queuePluginTask
  rw [he]

/-- Witness for C9: on a zero-cap pool, provisioning host `a` raises
`IndexError` (empty registry handed to `random.choice`); the submission
leaves the counter at 0 and all queues empty. -/
theorem dispatch_atomic_on_failure_witness :
    queuePluginTask pick0 true (mkPool plugins0 3 5 0 3) { hostname := "a" }
        "certinfo" [] = (mkPool plugins0 3 5 0 3, some PoolErr.indexError) ∧
    (mkPool plugins0 3 5 0 3).queuedTasksNb = (mkPool plugins0 3 5 0 3).queuedTasksNb ∧
    ∀ q, queueItems (mkPool plugins0 3 5 0 3) q = queueItems (mkPool plugins0 3 5 0 3) q :=
  dispatch_atomic_on_failure pick0 true (mkPool plugins0 3 5 0 3) (mkPool plugins0 3 5 0 3)
    { hostname := "a" } "certinfo" [] PoolErr.indexError rfl

/-- C10: on a fresh pool built with `max_processes_nb = 0`, the very first
`queue_plugin_task` call raises `IndexError` — the global cap is already
met while `_hostname_queues_dict` is still empty, so `random.choice` gets
an empty sequence — and the pool state is completely unchanged: nothing is
enqueued and the counter stays 0. -/
theorem zero_cap_first_submit_raises (pick : List QueueId → Option QueueId) (sok : Bool)
    (plugins : AvailablePlugins) (nr nt mh : Nat) (si : ServerConnectivityInfo)
    (cmd : PluginCommand) (opts : List (String × String)) (hp : PickValid pick) :
    queuePluginTask pick sok (mkPool plugins nr nt 0 mh) si cmd opts =
      (mkPool plugins nr nt 0 mh, some PoolErr.indexError) := by
  have hpe : pick ((mkPool plugins nr nt 0 mh).hostnameQueuesDict.map Prod.snd) = none := by
    rcases hq : pick [] with _ | q
    · exact hq
    · cases hp.1 [] q hq
  have hc : checkAndCreateProcess pick sok (mkPool plugins nr nt 0 mh) si.hostname =
      (mkPool plugins nr nt 0 mh, some PoolErr.indexError) := by
    unfold checkAndCreateProcess
    simp [mkPool, alookup, hpe, getCurrentProcessesNb, pickValid_empty pick hp]
  unfold queuePluginTask
  rw [hc]

/-- Witness for C10 at a concrete zero-cap pool and first submission. -/
theorem zero_cap_first_submit_raises_witness :
    queuePluginTask pick0 true (mkPool plugins0 7 9 0 3) { hostname := "a" }
        "certinfo" [] = (mkPool plugins0 7 9 0 3, some PoolErr.indexError) :=
  zero_cap_first_submit_raises pick0 true plugins0 7 9 3 { hostname := "a" }
    "certinfo" [] pick0_valid

theorem hostnameSentinels_eq_zero (procs : List (Hostname × List WorkerProcess))
    (l : List (Hostname × QueueId)) (q : QueueId) (hsep : ∀ p ∈ l, p.2 ≠ q) :
    hostnameSentinels procs l q = 0 := by
  unfold hostnameSentinels
  have hf : l.filter (fun p => p.2 == q) = [] := by
    rw [List.filter_eq_nil_iff]
    intro p hp
    simpa using hsep p hp
  rw [hf]
  rfl

/-- C2: `get_results` pushes exactly `N` sentinels on the shared task
queue, where `N` is the live worker count at call time; pushes on each
hostname queue one sentinel per worker dedicated to each host mapped to
it; and pops the result queue until exactly
`_queued_tasks_nb + N` items have been received, before the final joins
(which do not change the modelled state). -/
theorem drain_protocol (s : PoolState) (stream : List (Option ScanResult))
    (hsep : ∀ p ∈ s.hostnameQueuesDict, p.2 ≠ taskQueueId)
    (hlen : s.queuedTasksNb + getCurrentProcessesNb s ≤ stream.length) :
    queueItems (getResults s stream).finalState taskQueueId =
      queueItems s taskQueueId ++ List.replicate (getCurrentProcessesNb s) none ∧
    (∀ q, q ≠ taskQueueId →
      queueItems (getResults s stream).finalState q =
        queueItems s q ++ List.replicate
          (hostnameSentinels s.processesDict s.hostnameQueuesDict q) none) ∧
    (getResults s stream).receivedTaskResults =
      s.queuedTasksNb + getCurrentProcessesNb s := by
  have hpd : (putSentinels s taskQueueId (getCurrentProcessesNb s)).processesDict =
      s.processesDict := putSentinels_processesDict s taskQueueId _
  have hhd : (putSentinels s taskQueueId (getCurrentProcessesNb s)).hostnameQueuesDict =
      s.hostnameQueuesDict := putSentinels_hostnameQueuesDict s taskQueueId _
  have hfs : (getResults s stream).finalState =
      putHostnameSentinelsAux
        (putSentinels s taskQueueId (getCurrentProcessesNb s)).processesDict
        (putSentinels s taskQueueId (getCurrentProcessesNb s)).hostnameQueuesDict
        (putSentinels s taskQueueId (getCurrentProcessesNb s)) := rfl
  refine ⟨?_, ?_, ?_⟩
  · rw [hfs, queueItems_putHostnameSentinelsAux, hpd, hhd,
      hostnameSentinels_eq_zero s.processesDict s.hostnameQueuesDict taskQueueId hsep,
      queueItems_putSentinels]
    simp
  · intro q hq
    rw [hfs, queueItems_putHostnameSentinelsAux, hpd, hhd, queueItems_putSentinels,
      if_neg hq]
  · have hrc : (getResults s stream).receivedTaskResults =
        (drainLoop stream
          (((getResults s stream).finalState).queuedTasksNb +
            getCurrentProcessesNb ((getResults s stream).finalState))).1 := rfl
    have hqn : ((getResults s stream).finalState).queuedTasksNb = s.queuedTasksNb := by
      rw [hfs, putHostnameSentinelsAux_queuedTasksNb, putSentinels_queuedTasksNb]
    have hcn : getCurrentProcessesNb ((getResults s stream).finalState) =
        getCurrentProcessesNb s := by
      rw [getCurrentProcessesNb_eq_procSum, hfs, putHostnameSentinelsAux_processesDict,
        hpd, getCurrentProcessesNb_eq_procSum]
    rw [hrc, hqn, hcn]
    exact drainLoop_received stream _ hlen

/-- Witness for C2: draining `sampleState1` (counter 1, one worker) against
a stream holding one result then one completion signal pushes one sentinel
on the shared queue, one on host `a`'s queue, and pops 1 + 1 items. -/
theorem drain_protocol_witness :
    queueItems (getResults sampleState1
        [some { serverInfo := { hostname := "a" }, pluginCommand := "certinfo",
                pluginResult := "ok" }, none]).finalState taskQueueId =
      queueItems sampleState1 taskQueueId ++
        List.replicate (getCurrentProcessesNb sampleState1) none ∧
    (∀ q, q ≠ taskQueueId →
      queueItems (getResults sampleState1
          [some { serverInfo := { hostname := "a" }, pluginCommand := "certinfo",
                  pluginResult := "ok" }, none]).finalState q =
        queueItems sampleState1 q ++ List.replicate
          (hostnameSentinels sampleState1.processesDict
            sampleState1.hostnameQueuesDict q) none) ∧
    (getResults sampleState1
        [some { serverInfo := { hostname := "a" }, pluginCommand := "certinfo",
                pluginResult := "ok" }, none]).receivedTaskResults =
      sampleState1.queuedTasksNb + getCurrentProcessesNb sampleState1 :=
  drain_protocol sampleState1
    [some { serverInfo := { hostname := "a" }, pluginCommand := "certinfo",
            pluginResult := "ok" }, none]
    (by decide) (by decide)

/-- C1: after `N` successful `queue_plugin_task` calls on a fresh pool,
one `get_results` call against a result stream satisfying the worker
contract — one Result per task plus one Completion Signal (`None`) per
live worker — yields exactly the `N` Results, in arrival order, and never
yields a Completion Signal (every `None` is popped, counted and
discarded). -/
theorem drain_yields_exactly_tasks (pick : List QueueId → Option QueueId)
    (plugins : AvailablePlugins) (nr nt m mh : Nat) (subs : List Submission)
    (s : PoolState) (stream : List (Option ScanResult))
    (hr : runQueue pick true subs (mkPool plugins nr nt m mh) = (s, none))
    (hlen : stream.length = subs.length + getCurrentProcessesNb s)
    (hnone : stream.countP (fun o => o.isNone) = getCurrentProcessesNb s) :
    (getResults s stream).yielded = stream.filterMap id ∧
    (getResults s stream).yielded.length = subs.length := by
  have hq : s.queuedTasksNb = subs.length := by
    have := runQueue_queuedTasksNb pick true subs (mkPool plugins nr nt m mh) s hr
    simpa [mkPool] using this
  have hpd : (putSentinels s taskQueueId (getCurrentProcessesNb s)).processesDict =
      s.processesDict := putSentinels_processesDict s taskQueueId _
  have hfs : (getResults s stream).finalState =
      putHostnameSentinelsAux
        (putSentinels s taskQueueId (getCurrentProcessesNb s)).processesDict
        (putSentinels s taskQueueId (getCurrentProcessesNb s)).hostnameQueuesDict
        (putSentinels s taskQueueId (getCurrentProcessesNb s)) := rfl
  have hqn : ((getResults s stream).finalState).queuedTasksNb = s.queuedTasksNb := by
    rw [hfs, putHostnameSentinelsAux_queuedTasksNb, putSentinels_queuedTasksNb]
  have hcn : getCurrentProcessesNb ((getResults s stream).finalState) =
      getCurrentProcessesNb s := by
    rw [getCurrentProcessesNb_eq_procSum, hfs, putHostnameSentinelsAux_processesDict,
      hpd, getCurrentProcessesNb_eq_procSum]
  have hyd : (getResults s stream).yielded =
      (drainLoop stream
        (((getResults s stream).finalState).queuedTasksNb +
          getCurrentProcessesNb ((getResults s stream).finalState))).2 := rfl
  have hexp : ((getResults s stream).finalState).queuedTasksNb +
      getCurrentProcessesNb ((getResults s stream).finalState) = stream.length := by
    rw [hqn, hcn, hq, hlen]
  have hy : (getResults s stream).yielded = stream.filterMap id := by
    rw [hyd, hexp, drainLoop_yielded stream stream.length (Nat.le_refl _),
      List.take_length]
  refine ⟨hy, ?_⟩
  rw [hy]
  have hadd := length_filterMap_id_add stream
  rw [hnone, hlen] at hadd
  omega

/-- Witness for C1: two submissions, two workers, a stream of two results
and two completion signals; the drain yields exactly the two results. -/
theorem drain_yields_exactly_tasks_witness :
    (getResults (runQueue pick0 true
        [{ serverInfo := { hostname := "a" }, pluginCommand := "certinfo",
           pluginOptionsDict := [] },
         { serverInfo := { hostname := "b" }, pluginCommand := "certinfo",
           pluginOptionsDict := [] }]
        (mkPool plugins0 3 5 12 3)).1
      [some { serverInfo := { hostname := "a" }, pluginCommand := "certinfo",
              pluginResult := "ok-a" }, none,
       some { serverInfo := { hostname := "b" }, pluginCommand := "certinfo",
              pluginResult := "ok-b" }, none]).yielded =
      [some { serverInfo := { hostname := "a" }, pluginCommand := "certinfo",
              pluginResult := "ok-a" }, none,
       some { serverInfo := { hostname := "b" }, pluginCommand := "certinfo",
              pluginResult := "ok-b" }, none].filterMap id ∧
    (getResults (runQueue pick0 true
        [{ serverInfo := { hostname := "a" }, pluginCommand := "certinfo",
           pluginOptionsDict := [] },
         { serverInfo := { hostname := "b" }, pluginCommand := "certinfo",
           pluginOptionsDict := [] }]
        (mkPool plugins0 3 5 12 3)).1
      [some { serverInfo := { hostname := "a" }, pluginCommand := "certinfo",
              pluginResult := "ok-a" }, none,
       some { serverInfo := { hostname := "b" }, pluginCommand := "certinfo",
              pluginResult := "ok-b" }, none]).yielded.length = 2 :=
  drain_yields_exactly_tasks pick0 plugins0 3 5 12 3
    [{ serverInfo := { hostname := "a" }, pluginCommand := "certinfo",
       pluginOptionsDict := [] },
     { serverInfo := { hostname := "b" }, pluginCommand := "certinfo",
       pluginOptionsDict := [] }]
    (runQueue pick0 true
      [{ serverInfo := { hostname := "a" }, pluginCommand := "certinfo",
         pluginOptionsDict := [] },
       { serverInfo := { hostname := "b" }, pluginCommand := "certinfo",
         pluginOptionsDict := [] }]
      (mkPool plugins0 3 5 12 3)).1
    [some { serverInfo := { hostname := "a" }, pluginCommand := "certinfo",
            pluginResult := "ok-a" }, none,
     some { serverInfo := { hostname := "b" }, pluginCommand := "certinfo",
            pluginResult := "ok-b" }, none]
    rfl (by decide) (by decide)

theorem mem_aset {α β : Type} [DecidableEq α] (k : α) (v : β) (d : List (α × β))
    (p : α × β) (hp : p ∈ aset k v d) : p = (k, v) ∨ p ∈ d := by
  induction d with
  | nil =>
    simp [aset] at hp
    simp [hp]
  | cons p0 rest ih =>
    obtain ⟨k0, v0⟩ := p0
    by_cases hk : k = k0
    · rw [aset, if_pos hk] at hp
      rcases List.mem_cons.mp hp with he | hm
      · exact Or.inl he
      · exact Or.inr (List.mem_cons_of_mem _ hm)
    · rw [aset, if_neg hk] at hp
      rcases List.mem_cons.mp hp with he | hm
      · exact Or.inr (he ▸ List.mem_cons_self _ _)
      · rcases ih hm with h1 | h2
        · exact Or.inl h1
        · exact Or.inr (List.mem_cons_of_mem _ h2)

theorem mem_values_of_pred {α β : Type} (d : List (α × β)) (P : β → Prop) (q : β)
    (hall : ∀ p ∈ d, P p.2) (hq : q ∈ d.map Prod.snd) : P q := by
  rcases List.mem_map.mp hq with ⟨p, hp, hpq⟩
  exact hpq ▸ hall p hp

theorem poolInv_mkPool (plugins : AvailablePlugins) (nr nt m mh : Nat) :
    PoolInv (mkPool plugins nr nt m mh) := by
  refine ⟨rfl, ⟨Nat.le_refl 2, ?_, ?_⟩, ?_⟩
  · intro p hp
    rcases List.mem_cons.mp hp with he | hp1
    · rw [he]
      exact Nat.lt_of_lt_of_le Nat.zero_lt_two (Nat.le_refl 2)
    · rcases List.mem_cons.mp hp1 with he | hp2
      · rw [he]
        exact Nat.lt_succ_self 1
      · cases hp2
  · intro p hp
    cases hp
  · intro p hp
    cases hp

theorem check_poolInv (pick : List QueueId → Option QueueId) (sok : Bool)
    (s s' : PoolState) (h : Hostname) (hp : PickValid pick) (hinv : PoolInv s)
    (hsucc : checkAndCreateProcess pick sok s h = (s', none)) : PoolInv s' := by
  obtain ⟨hka, ⟨h2, hst, hhq⟩, hsep⟩ := hinv
  unfold checkAndCreateProcess at hsucc
  split at hsucc
  · rename_i hnew
    split at hsucc
    · rename_i hlt
      split at hsucc
      · -- new host, below cap, spawn succeeded
        cases hsucc
        have hnk : h ∉ s.hostnameQueuesDict.map Prod.fst :=
          (alookup_eq_none_iff h s.hostnameQueuesDict).mp hnew
        have hnp : h ∉ s.processesDict.map Prod.fst := by
          rw [← hka]
          exact hnk
        refine ⟨?_, ⟨?_, ?_, ?_⟩, ?_⟩
        · show KeysAligned _
          unfold KeysAligned
          rw [aset_map_fst_of_not_mem h _ s.hostnameQueuesDict hnk]
          rw [aset_map_fst_of_not_mem h _ s.processesDict hnp]
          rw [hka]
        · exact Nat.le_succ_of_le h2
        · intro p hp0
          rcases List.mem_append.mp hp0 with hm | hm
          · exact Nat.lt_succ_of_lt (hst p hm)
          · rcases List.mem_cons.mp hm with he | hc
            · rw [he]
              exact Nat.lt_succ_self _
            · cases hc
        · intro p hp0
          rcases mem_aset h s.nextQueueId s.hostnameQueuesDict p hp0 with he | hm
          · rw [he]
            exact Nat.lt_succ_self _
          · exact Nat.lt_succ_of_lt (hhq p hm)
        · intro p hp0
          rcases mem_aset h s.nextQueueId s.hostnameQueuesDict p hp0 with he | hm
          · rw [he]
            show s.nextQueueId ≠ taskQueueId
            unfold taskQueueId
            omega
          · exact hsep p hm
      · cases hsucc
    · rename_i hge
      split at hsucc
      · cases hsucc
      · -- new host, at the cap: reuse a queue
        rename_i q hpick
        cases hsucc
        have hnk : h ∉ s.hostnameQueuesDict.map Prod.fst :=
          (alookup_eq_none_iff h s.hostnameQueuesDict).mp hnew
        have hnp : h ∉ s.processesDict.map Prod.fst := by
          rw [← hka]
          exact hnk
        have hqmem : q ∈ s.hostnameQueuesDict.map Prod.snd := hp.1 _ q hpick
        refine ⟨?_, ⟨h2, hst, ?_⟩, ?_⟩
        · show KeysAligned _
          unfold KeysAligned
          rw [aset_map_fst_of_not_mem h _ s.hostnameQueuesDict hnk]
          rw [aset_map_fst_of_not_mem h _ s.processesDict hnp]
          rw [hka]
        · intro p hp0
          rcases mem_aset h q s.hostnameQueuesDict p hp0 with he | hm
          · rw [he]
            exact mem_values_of_pred s.hostnameQueuesDict (fun x => x < s.nextQueueId)
              q hhq hqmem
          · exact hhq p hm
        · intro p hp0
          rcases mem_aset h q s.hostnameQueuesDict p hp0 with he | hm
          · rw [he]
            exact mem_values_of_pred s.hostnameQueuesDict (fun x => x ≠ taskQueueId)
              q hsep hqmem
          · exact hsep p hm
  · rename_i hq0 hseen
    split at hsucc
    · cases hsucc
    · rename_i plist hpl
      split at hsucc
      · split at hsucc
        · -- seen host, spawn succeeded
          cases hsucc
          have hmem : h ∈ s.processesDict.map Prod.fst := by
            rw [← alookup_isSome_iff]
            rw [hpl]
            rfl
          refine ⟨?_, ⟨h2, hst, hhq⟩, hsep⟩
          show KeysAligned _
          unfold KeysAligned
          rw [aset_map_fst_of_mem h _ s.processesDict hmem]
          exact hka
        · cases hsucc
      · cases hsucc
        exact ⟨hka, ⟨h2, hst, hhq⟩, hsep⟩

theorem putItem_poolInv (s : PoolState) (q : QueueId) (item : QItem)
    (hinv : PoolInv s) (hq : q < s.nextQueueId) : PoolInv (putItem s q item) := by
  obtain ⟨hka, ⟨h2, hst, hhq⟩, hsep⟩ := hinv
  refine ⟨hka, ⟨h2, ?_, hhq⟩, hsep⟩
  intro p hp0
  rcases mem_aset q _ s.queueStore p hp0 with he | hm
  · rw [he]
    exact hq
  · exact hst p hm

theorem queuePluginTask_poolInv (pick : List QueueId → Option QueueId) (sok : Bool)
    (s s' : PoolState) (si : ServerConnectivityInfo) (cmd : PluginCommand)
    (opts : List (String × String)) (hp : PickValid pick) (hinv : PoolInv s)
    (hsucc : queuePluginTask pick sok s si cmd opts = (s', none)) : PoolInv s' := by
  unfold queuePluginTask at hsucc
  rcases he : checkAndCreateProcess pick sok s si.hostname with ⟨s1, e⟩
  rw [he] at hsucc
  cases e with
  | some err => cases hsucc
  | none =>
    have hinv1 : PoolInv s1 := check_poolInv pick sok s s1 si.hostname hp hinv he
    obtain ⟨hka1, ⟨h21, hst1, hhq1⟩, hsep1⟩ := hinv1
    simp only at hsucc
    split at hsucc
    · split at hsucc
      · rename_i q hlook
        cases hsucc
        refine putItem_poolInv _ q _ ⟨hka1, ⟨h21, hst1, hhq1⟩, hsep1⟩ ?_
        have hqmem : q ∈ s1.hostnameQueuesDict.map Prod.snd :=
          alookup_mem_values si.hostname q s1.hostnameQueuesDict hlook
        exact mem_values_of_pred s1.hostnameQueuesDict (fun x => x < s1.nextQueueId)
          q hhq1 hqmem
      · cases hsucc
    · cases hsucc
      refine putItem_poolInv _ taskQueueId _ ⟨hka1, ⟨h21, hst1, hhq1⟩, hsep1⟩ ?_
      exact Nat.lt_of_lt_of_le (by decide) h21

/-- Every pool reachable from the constructor by successful submissions
satisfies all three structural invariants assumed by the claims above. -/
theorem runQueue_poolInv (pick : List QueueId → Option QueueId)
    (plugins : AvailablePlugins) (nr nt m mh : Nat) (subs : List Submission)
    (s : PoolState) (hp : PickValid pick)
    (hr : runQueue pick true subs (mkPool plugins nr nt m mh) = (s, none)) :
    PoolInv s := by
  have key : ∀ (l : List Submission) (st fin : PoolState), PoolInv st →
      runQueue pick true l st = (fin, none) → PoolInv fin := by
    intro l
    induction l with
    | nil =>
      intro st fin hinv hrun
      cases hrun
      exact hinv
    | cons t rest ih =>
      intro st fin hinv hrun
      unfold runQueue at hrun
      rcases he : queuePluginTask pick true st t.serverInfo t.pluginCommand
          t.pluginOptionsDict with ⟨s1, e⟩
      rw [he] at hrun
      cases e with
      | some err => cases hrun
      | none =>
        exact ih s1 fin
          (queuePluginTask_poolInv pick true st s1 t.serverInfo t.pluginCommand
            t.pluginOptionsDict hp hinv he) hrun
  exact key subs (mkPool plugins nr nt m mh) s (poolInv_mkPool plugins nr nt m mh) hr

end SSLyze
